import Mathlib

/-!
Verification development for the event-time keyed windowed aggregation
engine of the `flink_with_aws` repository.

The development shallowly embeds two layers:

* code present in the repository sources, translated directly
  (`SensorReading.process_elements`, `SensorReading.__init__` validation from
  `stream-processing-with-pyflink/src/chapter1/model.py`);
* the aggregation engine specified in `spec.md` whose concrete code
  (`models.py` with `UserStatistics`, the Flink runtime's watermark,
  windowing and trigger machinery) is exercised by the repository's tests
  but is not itself part of the source corpus: those parts are modelled
  from the spec, and each such definition says so in its doc comment.

Timestamps are integers (milliseconds for event time, seconds for the
flight departure/arrival fields), machine floats of the temperature
aggregation are modelled as rationals, and fallible code returns `Option`.
-/

/-- Modelled from the spec: a flight event as consumed by the user-statistics
pipeline (`models.py` / `helpers.py` are not in the source corpus).  The
`email_address` is the grouping key; `departure_time` and `arrival_time` are
timestamps in whole seconds; `event_time` is the event-time timestamp in
milliseconds produced by the `TimestampAssigner`. -/
structure Flight where
  email_address : String
  departure_time : Int
  arrival_time : Int
  event_time : Int
deriving DecidableEq, Repr

/-- Modelled from the spec: the `UserStatistics` accumulator of
`models.py` — one key plus the aggregate fields (total flight duration in
integer minutes and a flight count). -/
structure UserStatistics where
  email_address : String
  total_flight_duration : Int
  number_of_flights : Nat
deriving DecidableEq, Repr

namespace UserStatistics

/-- Modelled from the spec: duration of a single flight, "a timestamp
subtraction producing whole seconds then floor-divided by 60" (§4.5). -/
def duration_of (f : Flight) : Int :=
  (f.arrival_time - f.departure_time).fdiv 60

/-- Modelled from the spec: `UserStatistics.from_flight` of `models.py` —
the direct single-record computation: one flight, its own duration, the
flight's key. -/
def from_flight (f : Flight) : UserStatistics :=
  { email_address := f.email_address
    total_flight_duration := duration_of f
    number_of_flights := 1 }

/-- Modelled from the spec: the empty accumulator — "counts are unsigned
integers starting at zero" (§4.5). -/
def emptyStats : UserStatistics :=
  { email_address := "", total_flight_duration := 0, number_of_flights := 0 }

/-- Modelled from the spec: `add(acc, event)` of the `AggregationFunction`
contract — incorporate one event into an accumulator in O(1). -/
def add (acc : UserStatistics) (f : Flight) : UserStatistics :=
  { email_address := f.email_address
    total_flight_duration := acc.total_flight_duration + duration_of f
    number_of_flights := acc.number_of_flights + 1 }

/-- Modelled from the spec: `UserStatistics.merge` of `models.py` —
combining two accumulators of the same key sums the aggregate fields;
merging accumulators of different keys fails fast (`KeyMismatchError`,
surfaced as an `AssertionError` in the tests), modelled as `none`. -/
def merge (a b : UserStatistics) : Option UserStatistics :=
  if a.email_address = b.email_address then
    some { email_address := a.email_address
           total_flight_duration := a.total_flight_duration + b.total_flight_duration
           number_of_flights := a.number_of_flights + b.number_of_flights }
  else
    none

end UserStatistics

/-- One element of the iterable consumed by
`SensorReading.process_elements`: the code reads `e[0]` (the sensor id used
to build the grouping tag) and `e[1]` (the field entering the temperature
formula). -/
structure SensorElem where
  sensorId : Int
  numRecords : Int
deriving DecidableEq, Repr

namespace SensorReading

/-- The tag `"sensor_{e[0]}"` computed inside
`SensorReading.process_elements` (`chapter1/model.py`). -/
def sensorTag (e : SensorElem) : String :=
  "sensor_" ++ toString e.sensorId

/-- The per-element temperature contribution `65 + (e[1] / 100 * 20)` of
`SensorReading.process_elements`, with the float arithmetic modelled over
the rationals. -/
def contribution (e : SensorElem) : ℚ :=
  65 + (e.numRecords : ℚ) / 100 * 20

/-- The loop of `SensorReading.process_elements`: state `(id, count,
temperature)`, one element at a time; the `assert id == next_id` statement
failing is modelled by returning `none`. -/
def processLoop : Option String → Nat → ℚ → List SensorElem →
    Option (Option String × Nat × ℚ)
  | idSt, count, temp, [] => some (idSt, count, temp)
  | idSt, count, temp, e :: rest =>
    match idSt with
    | some i =>
      if i = sensorTag e then
        processLoop (some (sensorTag e)) (count + 1) (temp + contribution e) rest
      else
        none
    | none =>
      processLoop (some (sensorTag e)) (count + 1) (temp + contribution e) rest

/-- `SensorReading.process_elements` of `chapter1/model.py`: fold the
elements of one (key, window) group into `(id, count, temperature)`,
failing (assertion) when two elements carry different sensor tags. -/
def process_elements (elements : List SensorElem) :
    Option (Option String × Nat × ℚ) :=
  processLoop none 0 0 elements

/-- The attribute list of `SensorReading.__init__` (`chapter1/model.py`). -/
def attributes : List String :=
  ["id", "timestamp", "num_records", "temperature"]

/-- The two errors `SensorReading.__init__` can raise. -/
inductive InitError where
  | runtimeError
  | attributeError
deriving DecidableEq, Repr

/-- Whether two lists of keys are equal as sets, as Python's
`set(attributes) != set(kwargs.keys())` compares them. -/
def sameKeySet (xs ys : List String) : Prop :=
  (∀ x ∈ xs, x ∈ ys) ∧ (∀ y ∈ ys, y ∈ xs)

instance (xs ys : List String) : Decidable (sameKeySet xs ys) := by
  unfold sameKeySet; infer_instance

/-- `SensorReading.__init__` of `chapter1/model.py`: positional arguments
raise `RuntimeError`; a keyword set different from `attributes` raises
`AttributeError`; otherwise construction succeeds.  `nargs` is the number
of positional arguments, `kwargKeys` the keyword names supplied. -/
def init (nargs : Nat) (kwargKeys : List String) : Except InitError Unit :=
  if nargs ≠ 0 then
    .error .runtimeError
  else if ¬ sameKeySet attributes kwargKeys then
    .error .attributeError
  else
    .ok ()

end SensorReading

/-- Modelled from the spec: a window `{start, end}`, a half-open interval
`[start, end)` (§3); `end` being a Lean keyword, the field is `wend`. -/
structure Window where
  start : Int
  wend : Int
deriving DecidableEq, Repr

/-- Modelled from the spec: `start = floor(eventTime / windowSize) *
windowSize` (§4.3), with `Int.fdiv` as the floor division. -/
def windowStart (t s : Int) : Int :=
  (t.fdiv s) * s

/-- Modelled from the spec: `windowsFor(eventTime)` of the tumbling
Windower (§4.3) — exactly one window, epoch aligned, of size `s`. -/
def windowsFor (t s : Int) : List Window :=
  [{ start := windowStart t s, wend := windowStart t s + s }]

/-- Modelled from the spec: the WatermarkTracker state (§4.2) — the
maximum observed timestamp and the current watermark, both starting at the
sentinel `-infinity`, modelled as `none`. -/
structure WatermarkTracker where
  maxObservedTimestamp : Option Int
  currentWatermark : Option Int
deriving DecidableEq, Repr

namespace WatermarkTracker

/-- The initial tracker: both values at the `-infinity` sentinel. -/
def initTracker : WatermarkTracker :=
  { maxObservedTimestamp := none, currentWatermark := none }

/-- The max of the observed-timestamp register and a new timestamp, the
sentinel `none` lying below every timestamp. -/
def advance : Option Int → Int → Int
  | none, ts => ts
  | some m, ts => max m ts

/-- Modelled from the spec: `onEvent(ts)` under the monotonous policy
(§4.2) — `maxObservedTimestamp` is bumped to the max and the watermark
follows it. -/
def onEvent (w : WatermarkTracker) (ts : Int) : WatermarkTracker :=
  { maxObservedTimestamp := some (advance w.maxObservedTimestamp ts)
    currentWatermark := some (advance w.maxObservedTimestamp ts) }

/-- Modelled from the spec: the `current()` read-only accessor (§4.2). -/
def current (w : WatermarkTracker) : Option Int :=
  w.currentWatermark

/-- Order on watermark values: the sentinel `-infinity` is below
everything, two proper timestamps compare as integers. -/
def wmLe : Option Int → Option Int → Prop
  | none, _ => True
  | some _, none => False
  | some a, some b => a ≤ b

end WatermarkTracker

/-- The key of a KeyedAccumulatorStore entry: the grouping key paired with
the window start (a window is uniquely identified by `(key, start)`, §3). -/
abbrev StoreKey := String × Int

/-- Modelled from the spec: the KeyedAccumulatorStore (§4.4), an
association list from `(key, window start)` to the accumulator. -/
abbrev Store := List (StoreKey × UserStatistics)

/-- Modelled from the spec: one emitted Result (§3) — the key, the window
start, and the finalized aggregate fields. -/
structure ResultRec where
  email_address : String
  window_start : Int
  total_flight_duration : Int
  number_of_flights : Nat
deriving DecidableEq, Repr

/-- The (key, window) pair a Result stands for. -/
def resPair (r : ResultRec) : StoreKey :=
  (r.email_address, r.window_start)

/-- Modelled from the spec: `applyEvent` of the KeyedAccumulatorStore
(§4.4) — create the entry on first event via `add(emptyAccumulator, e)`,
otherwise `add` into the existing accumulator. -/
def storeAdd : Store → StoreKey → Flight → Store
  | [], k, f => [(k, UserStatistics.add UserStatistics.emptyStats f)]
  | (k', a) :: rest, k, f =>
    if k' = k then (k', UserStatistics.add a f) :: rest
    else (k', a) :: storeAdd rest k f

/-- Modelled from the spec: `finalize` (§4.5), a pure projection of the
accumulator of one `(key, window)` store entry into a Result. -/
def finalizeEntry (p : StoreKey × UserStatistics) : ResultRec :=
  { email_address := p.1.1
    window_start := p.1.2
    total_flight_duration := p.2.total_flight_duration
    number_of_flights := p.2.number_of_flights }

/-- The emission order of simultaneously closed windows: ascending window
start (§4.6 edge case). -/
def startLe (p q : StoreKey × UserStatistics) : Prop :=
  p.1.2 ≤ q.1.2

instance : DecidableRel startLe := fun p q => by
  unfold startLe; infer_instance

/-- Closed store entries sorted in ascending window-start order. -/
def sortByStart (st : Store) : Store :=
  List.insertionSort startLe st

/-- Modelled from the spec: the mutable state of one Pipeline instance —
the watermark register, the KeyedAccumulatorStore and the Results already
handed to the sink. -/
structure PipeState where
  maxTs : Option Int
  store : Store
  emitted : List ResultRec
deriving Repr

/-- The initial pipeline state: sentinel watermark, empty store, nothing
emitted. -/
def initPipe : PipeState :=
  { maxTs := none, store := [], emitted := [] }

/-- Modelled from the spec: the accumulator-store update of one Pipeline
step — the event is dropped when its window end is at or before the
advanced watermark (§4.4 late-event policy), otherwise `applyEvent` routes
it into its (key, window) accumulator. -/
def stepStore (s : Int) (st : PipeState) (f : Flight) : Store :=
  if windowStart f.event_time s + s ≤ WatermarkTracker.advance st.maxTs f.event_time then
    st.store
  else
    storeAdd st.store (f.email_address, windowStart f.event_time s) f

/-- Modelled from the spec: one Pipeline step (§2) for a single flight
event: advance the watermark (monotonous policy), route to the single
tumbling window, drop the event if its window is already closed (§4.4
late-event policy), otherwise update the accumulator (`stepStore`), then
emit and evict every window whose end the watermark has passed, in
ascending start order (§4.6). -/
def stepEvent (s : Int) (st : PipeState) (f : Flight) : PipeState :=
  let wm := WatermarkTracker.advance st.maxTs f.event_time
  let store1 := stepStore s st f
  let closed := store1.filter (fun p => decide (p.1.2 + s ≤ wm))
  let stillOpen := store1.filter (fun p => decide (wm < p.1.2 + s))
  { maxTs := some wm
    store := stillOpen
    emitted := st.emitted ++ (sortByStart closed).map finalizeEntry }

/-- Process a whole event sequence from the initial state. -/
def procEvents (s : Int) (events : List Flight) : PipeState :=
  events.foldl (stepEvent s) initPipe

/-- Modelled from the spec: end of stream (§5, §6) — the bounded input is
exhausted, so every still-open window is closed early and emitted, in
ascending start order. -/
def flushResults (st : PipeState) : List ResultRec :=
  st.emitted ++ (sortByStart st.store).map finalizeEntry

/-- Modelled from the spec: the whole Pipeline run on a bounded event
sequence — process every event, then flush at end of stream. -/
def runPipeline (s : Int) (events : List Flight) : List ResultRec :=
  flushResults (procEvents s events)

/-- The pipeline-state invariant behind the emit-once guarantee: store
keys and emitted (key, window) pairs are duplicate-free; before the first
event both are empty; afterwards every stored window is still open and
every emitted window is closed relative to the current watermark. -/
def goodState (s : Int) (st : PipeState) : Prop :=
  ((st.store.map Prod.fst).Nodup) ∧
  ((st.emitted.map resPair).Nodup) ∧
  (match st.maxTs with
   | none => st.store = [] ∧ st.emitted = []
   | some m =>
     (∀ p ∈ st.store, m < p.1.2 + s) ∧ (∀ r ∈ st.emitted, r.window_start + s ≤ m))

lemma fdiv_mul_bounds (t : Int) {s : Int} (hs : 0 < s) :
    (t.fdiv s) * s ≤ t ∧ t < (t.fdiv s) * s + s := by
  rw [Int.fdiv_eq_ediv t hs.le]
  have hed := Int.ediv_add_emod t s
  have h1 : 0 ≤ t % s := Int.emod_nonneg t (ne_of_gt hs)
  have h2 : t % s < s := Int.emod_lt_of_pos t hs
  constructor
  · nlinarith [hed]
  · nlinarith [hed]

lemma windowStart_le (t : Int) {s : Int} (hs : 0 < s) : windowStart t s ≤ t :=
  (fdiv_mul_bounds t hs).1

lemma lt_windowStart_add (t : Int) {s : Int} (hs : 0 < s) :
    t < windowStart t s + s :=
  (fdiv_mul_bounds t hs).2

lemma windowStart_unique {t s k : Int} (hs : 0 < s)
    (h1 : k * s ≤ t) (h2 : t < k * s + s) : k * s = windowStart t s := by
  unfold windowStart
  rw [Int.fdiv_eq_ediv t hs.le]
  have hk1 : k ≤ t / s := (Int.le_ediv_iff_mul_le hs).mpr h1
  have hk2 : t / s < k + 1 := by
    rw [Int.ediv_lt_iff_lt_mul hs]
    nlinarith
  have : k = t / s := by omega
  rw [this]

/-- C7: for every event time `t` and window size `s > 0` the tumbling
windower assigns exactly one window, with `start = floor(t / s) * s` and
`end = start + s`; the window is a half-open epoch-aligned interval of
size `s` containing `t`, and every epoch-aligned size-`s` interval
containing `t` is this one (so windows are non-overlapping). -/
theorem tumbling_window_assignment (t : Int) {s : Int} (hs : 0 < s) :
    windowsFor t s = [{ start := windowStart t s, wend := windowStart t s + s }] ∧
    (windowsFor t s).length = 1 ∧
    (∀ w ∈ windowsFor t s,
      w.wend - w.start = s ∧ w.start ≤ t ∧ t < w.wend ∧ ∃ k : Int, w.start = k * s) ∧
    (∀ k : Int, k * s ≤ t → t < k * s + s → k * s = windowStart t s) := by
  refine ⟨rfl, rfl, ?_, fun k h1 h2 => windowStart_unique hs h1 h2⟩
  intro w hw
  simp only [windowsFor, List.mem_singleton] at hw
  subst hw
  refine ⟨by ring, windowStart_le t hs, lt_windowStart_add t hs, t.fdiv s, rfl⟩

/-- Witness for `tumbling_window_assignment` at `t = 125`, `s = 60`. -/
theorem tumbling_window_assignment_witness :
    (0 : Int) < 60 ∧
    (windowsFor 125 60 = [{ start := windowStart 125 60, wend := windowStart 125 60 + 60 }] ∧
     (windowsFor 125 60).length = 1 ∧
     (∀ w ∈ windowsFor 125 60,
       w.wend - w.start = 60 ∧ w.start ≤ 125 ∧ 125 < w.wend ∧ ∃ k : Int, w.start = k * 60) ∧
     (∀ k : Int, k * 60 ≤ 125 → 125 < k * 60 + 60 → k * 60 = windowStart 125 60)) :=
  ⟨by decide, tumbling_window_assignment 125 (by decide)⟩

namespace WatermarkTracker

lemma foldl_onEvent_from (l : List Int) (m : Int) :
    l.foldl onEvent { maxObservedTimestamp := some m, currentWatermark := some m }
      = { maxObservedTimestamp := some (l.foldl max m),
          currentWatermark := some (l.foldl max m) } := by
  induction l generalizing m with
  | nil => rfl
  | cons a as ih =>
    simp only [List.foldl_cons]
    have : onEvent { maxObservedTimestamp := some m, currentWatermark := some m } a
        = { maxObservedTimestamp := some (max m a), currentWatermark := some (max m a) } := rfl
    rw [this, ih]


lemma foldl_max_comm (l : List Int) (a b : Int) :
    l.foldl max (max a b) = max a (l.foldl max b) := by
  induction l generalizing b with
  | nil => rfl
  | cons c cs ih =>
    simp only [List.foldl_cons]
    rw [max_assoc, ih]

lemma max?_elim_eq_foldl (as : List Int) (a : Int) :
    as.max?.elim a (max a) = as.foldl max a := by
  induction as generalizing a with
  | nil => rfl
  | cons b bs ih =>
    simp only [List.max?_cons, Option.elim_some, List.foldl_cons]
    rw [ih b, foldl_max_comm]

/-- C2: under the monotonous policy, after any sequence of `onEvent`
calls the watermark returned by `current()` equals the maximum of the
timestamps seen (the sentinel `none` for the empty sequence), and
appending one more event — however small its timestamp — never decreases
the watermark. -/
theorem watermark_monotonous (ts : List Int) (t : Int) :
    current (ts.foldl onEvent initTracker) = ts.max? ∧
    wmLe (current (ts.foldl onEvent initTracker))
         (current ((ts ++ [t]).foldl onEvent initTracker)) := by
  constructor
  · cases ts with
    | nil => rfl
    | cons a as =>
      simp only [List.foldl_cons]
      have h0 : onEvent initTracker a
          = { maxObservedTimestamp := some a, currentWatermark := some a } := rfl
      rw [h0, foldl_onEvent_from]
      simp only [current, List.max?_cons]
      rw [max?_elim_eq_foldl]
  · rw [List.foldl_append]
    cases ts with
    | nil =>
      simp [initTracker, current, wmLe, List.foldl_nil]
    | cons a as =>
      simp only [List.foldl_cons]
      have h0 : onEvent initTracker a
          = { maxObservedTimestamp := some a, currentWatermark := some a } := rfl
      rw [h0, foldl_onEvent_from]
      simp only [List.foldl_cons, List.foldl_nil]
      have h1 : onEvent { maxObservedTimestamp := some (as.foldl max a),
                          currentWatermark := some (as.foldl max a) } t
          = { maxObservedTimestamp := some (max (as.foldl max a) t),
              currentWatermark := some (max (as.foldl max a) t) } := rfl
      rw [h1]
      simp [current, wmLe, le_max_left]

end WatermarkTracker

/-- C3: merging two accumulators whose keys differ fails fast (no merged
accumulator is produced); with equal keys the merge succeeds and the
merged accumulator keeps that key.  Likewise, folding one window group via
`SensorReading.process_elements` fails on the first element whose sensor
tag differs from the running key. -/
theorem merge_key_mismatch (a b : UserStatistics) (e1 e2 : SensorElem)
    (es : List SensorElem) :
    (a.email_address ≠ b.email_address → UserStatistics.merge a b = none) ∧
    (a.email_address = b.email_address →
      ∃ m, UserStatistics.merge a b = some m ∧ m.email_address = a.email_address) ∧
    (SensorReading.sensorTag e1 ≠ SensorReading.sensorTag e2 →
      SensorReading.process_elements (e1 :: e2 :: es) = none) := by
  refine ⟨fun h => ?_, fun h => ?_, fun h => ?_⟩
  · simp [UserStatistics.merge, h]
  · refine ⟨{ email_address := a.email_address,
              total_flight_duration := a.total_flight_duration + b.total_flight_duration,
              number_of_flights := a.number_of_flights + b.number_of_flights }, ?_, rfl⟩
    simp [UserStatistics.merge, h]
  · simp [SensorReading.process_elements, SensorReading.processLoop, h]

/-- Witness for `merge_key_mismatch` on concrete statistics and sensor
elements. -/
theorem merge_key_mismatch_witness :
    (UserStatistics.merge ⟨"a@x.com", 10, 1⟩ ⟨"b@x.com", 20, 1⟩ = none) ∧
    (∃ m, UserStatistics.merge ⟨"a@x.com", 10, 1⟩ ⟨"a@x.com", 20, 1⟩ = some m ∧
      m.email_address = "a@x.com") ∧
    (SensorReading.process_elements [⟨1, 50⟩, ⟨2, 50⟩] = none) :=
  ⟨(merge_key_mismatch ⟨"a@x.com", 10, 1⟩ ⟨"b@x.com", 20, 1⟩ ⟨1, 50⟩ ⟨2, 50⟩ []).1
      (by decide),
   (merge_key_mismatch ⟨"a@x.com", 10, 1⟩ ⟨"a@x.com", 20, 1⟩ ⟨1, 50⟩ ⟨2, 50⟩ []).2.1 rfl,
   (merge_key_mismatch ⟨"a@x.com", 10, 1⟩ ⟨"b@x.com", 20, 1⟩ ⟨1, 50⟩ ⟨2, 50⟩ []).2.2
      (by decide)⟩

/-- C5: for accumulators of one key, `merge` is associative and
commutative, equality judged structurally on the key, the aggregate total
and the count. -/
theorem merge_assoc_comm (a b c : UserStatistics)
    (hab : a.email_address = b.email_address)
    (hbc : b.email_address = c.email_address) :
    ((UserStatistics.merge a b).bind (fun ab => UserStatistics.merge ab c)
      = (UserStatistics.merge b c).bind (fun bc => UserStatistics.merge a bc)) ∧
    UserStatistics.merge a b = UserStatistics.merge b a := by
  constructor
  · simp [UserStatistics.merge, hab, hbc, hab.trans hbc, Int.add_assoc, Nat.add_assoc]
  · unfold UserStatistics.merge
    rw [if_pos hab, if_pos hab.symm]
    simp only [Option.some.injEq, UserStatistics.mk.injEq]
    exact ⟨hab, Int.add_comm _ _, Nat.add_comm _ _⟩

/-- Witness for `merge_assoc_comm` on three concrete same-key
accumulators. -/
theorem merge_assoc_comm_witness :
    ((UserStatistics.merge ⟨"a@x.com", 10, 1⟩ ⟨"a@x.com", 20, 2⟩).bind
        (fun ab => UserStatistics.merge ab ⟨"a@x.com", 30, 3⟩)
      = (UserStatistics.merge ⟨"a@x.com", 20, 2⟩ ⟨"a@x.com", 30, 3⟩).bind
        (fun bc => UserStatistics.merge ⟨"a@x.com", 10, 1⟩ bc)) ∧
    UserStatistics.merge ⟨"a@x.com", 10, 1⟩ ⟨"a@x.com", 20, 2⟩
      = UserStatistics.merge ⟨"a@x.com", 20, 2⟩ ⟨"a@x.com", 10, 1⟩ :=
  merge_assoc_comm ⟨"a@x.com", 10, 1⟩ ⟨"a@x.com", 20, 2⟩ ⟨"a@x.com", 30, 3⟩ rfl rfl

/-- C8: the single-record flight duration is the arrival-minus-departure
timestamp difference in whole seconds floor-divided by 60 (characterized
by the floor bounds), and the count of the empty accumulator is zero (a
`Nat`, hence non-negative). -/
theorem duration_floor_semantics (f : Flight) :
    60 * (UserStatistics.from_flight f).total_flight_duration
        ≤ f.arrival_time - f.departure_time ∧
    f.arrival_time - f.departure_time
        < 60 * (UserStatistics.from_flight f).total_flight_duration + 60 ∧
    (UserStatistics.from_flight f).total_flight_duration
        = (f.arrival_time - f.departure_time).fdiv 60 ∧
    UserStatistics.emptyStats.number_of_flights = 0 := by
  have hb := fdiv_mul_bounds (f.arrival_time - f.departure_time) (by decide : (0:Int) < 60)
  refine ⟨?_, ?_, rfl, rfl⟩
  · have := hb.1
    simp only [UserStatistics.from_flight, UserStatistics.duration_of]
    linarith [this]
  · have := hb.2
    simp only [UserStatistics.from_flight, UserStatistics.duration_of]
    linarith [this]

/-- C10: constructing a `SensorReading` validates its shape: any
positional argument raises `RuntimeError`; with no positional arguments a
keyword set different from `{id, timestamp, num_records, temperature}`
raises `AttributeError`; construction succeeds exactly when the keyword
names are precisely those four. -/
theorem sensor_reading_init_validation (nargs : Nat) (kwargKeys : List String) :
    (nargs ≠ 0 → SensorReading.init nargs kwargKeys = .error .runtimeError) ∧
    (nargs = 0 → ¬ SensorReading.sameKeySet SensorReading.attributes kwargKeys →
      SensorReading.init nargs kwargKeys = .error .attributeError) ∧
    (SensorReading.init nargs kwargKeys = .ok () ↔
      nargs = 0 ∧ SensorReading.sameKeySet SensorReading.attributes kwargKeys) := by
  refine ⟨fun h => ?_, fun h0 h1 => ?_, ?_⟩
  · simp [SensorReading.init, h]
  · simp [SensorReading.init, h0, h1]
  · unfold SensorReading.init
    split_ifs with h1 h2
    · simp_all
    · simp_all
    · simp_all

/-- Witness for `sensor_reading_init_validation` on concrete argument
shapes. -/
theorem sensor_reading_init_validation_witness :
    (SensorReading.init 1 [] = .error .runtimeError) ∧
    (SensorReading.init 0 ["id"] = .error .attributeError) ∧
    (SensorReading.init 0 ["id", "timestamp", "num_records", "temperature"] = .ok () ↔
      (0 : Nat) = 0 ∧ SensorReading.sameKeySet SensorReading.attributes
        ["id", "timestamp", "num_records", "temperature"]) :=
  ⟨(sensor_reading_init_validation 1 []).1 (by decide),
   (sensor_reading_init_validation 0 ["id"]).2.1 rfl (by decide),
   (sensor_reading_init_validation 0
      ["id", "timestamp", "num_records", "temperature"]).2.2⟩

lemma stepEvent_init {s : Int} (hs : 0 < s) (f : Flight) :
    stepEvent s initPipe f
      = { maxTs := some f.event_time,
          store := [((f.email_address, windowStart f.event_time s),
                     UserStatistics.add UserStatistics.emptyStats f)],
          emitted := [] } := by
  have h1 : ¬ (windowStart f.event_time s + s ≤ f.event_time) := by
    have := lt_windowStart_add f.event_time hs
    omega
  have h2 : f.event_time < windowStart f.event_time s + s :=
    lt_windowStart_add f.event_time hs
  simp [stepEvent, stepStore, initPipe, WatermarkTracker.advance, storeAdd,
    sortByStart, List.insertionSort, List.filter, h1, h2]

lemma flush_single (m : Int) (k : StoreKey) (acc : UserStatistics)
    (em : List ResultRec) :
    flushResults { maxTs := some m, store := [(k, acc)], emitted := em }
      = em ++ [finalizeEntry (k, acc)] := by
  simp [flushResults, sortByStart, List.insertionSort, List.orderedInsert]

lemma run_single_window {s : Int} (hs : 0 < s) (k : String) (W : Int) :
    ∀ (l : List Flight) (m : Int) (acc : UserStatistics) (em : List ResultRec),
    (∀ f ∈ l, f.email_address = k ∧ windowStart f.event_time s = W) →
    m < W + s →
    l.foldl (stepEvent s) { maxTs := some m, store := [((k, W), acc)], emitted := em }
      = { maxTs := some (l.foldl (fun x f => max x f.event_time) m),
          store := [((k, W), l.foldl UserStatistics.add acc)],
          emitted := em } := by
  intro l
  induction l with
  | nil => intro m acc em _ _; rfl
  | cons f fs ih =>
    intro m acc em hall hm
    obtain ⟨hk, hW⟩ := hall f (List.mem_cons_self f fs)
    have ht : f.event_time < W + s := by
      have := lt_windowStart_add f.event_time hs
      omega
    have hwm : max m f.event_time < W + s := by omega
    have hstep : stepEvent s { maxTs := some m, store := [((k, W), acc)], emitted := em } f
        = { maxTs := some (max m f.event_time),
            store := [((k, W), UserStatistics.add acc f)],
            emitted := em } := by
      have hnl : ¬ (windowStart f.event_time s + s ≤ max m f.event_time) := by
        rw [hW]; omega
      have h3 : ¬ ((W : Int) + s ≤ m) := by omega
      have h4 : ¬ ((W : Int) + s ≤ f.event_time) := by omega
      simp [stepEvent, stepStore, WatermarkTracker.advance, hW, hnl, hm, ht, h3, h4,
        storeAdd, hk, sortByStart, List.insertionSort, List.filter]
    simp only [List.foldl_cons, hstep]
    exact ih (max m f.event_time) (UserStatistics.add acc f) em
      (fun g hg => hall g (List.mem_cons_of_mem f hg)) hwm

lemma foldl_add_total (l : List Flight) (acc : UserStatistics) :
    (l.foldl UserStatistics.add acc).total_flight_duration
      = acc.total_flight_duration + (l.map UserStatistics.duration_of).sum := by
  induction l generalizing acc with
  | nil => simp
  | cons f fs ih =>
    simp only [List.foldl_cons, List.map_cons, List.sum_cons, ih]
    simp [UserStatistics.add]
    ring

lemma foldl_add_count (l : List Flight) (acc : UserStatistics) :
    (l.foldl UserStatistics.add acc).number_of_flights
      = acc.number_of_flights + l.length := by
  induction l generalizing acc with
  | nil => simp
  | cons f fs ih =>
    simp only [List.foldl_cons, List.length_cons, ih]
    simp [UserStatistics.add]
    ring

lemma grouping_core (s : Int) (k : String) (W : Int) (l : List Flight)
    (hs : 0 < s) (hne : l ≠ [])
    (hall : ∀ f ∈ l, f.email_address = k ∧ windowStart f.event_time s = W) :
    runPipeline s l
      = [{ email_address := k, window_start := W,
           total_flight_duration := (l.map UserStatistics.duration_of).sum,
           number_of_flights := l.length }] := by
  cases l with
  | nil => exact absurd rfl hne
  | cons f fs =>
    obtain ⟨hk, hW⟩ := hall f (List.mem_cons_self f fs)
    have ht : f.event_time < W + s := by
      have := lt_windowStart_add f.event_time hs
      omega
    unfold runPipeline procEvents
    rw [List.foldl_cons, stepEvent_init hs f, hk, hW,
      run_single_window hs k W fs f.event_time _ []
        (fun g hg => hall g (List.mem_cons_of_mem f hg)) ht,
      flush_single]
    simp only [List.nil_append, finalizeEntry, List.map_cons, List.sum_cons,
      List.length_cons]
    have h1 := foldl_add_total fs (UserStatistics.add UserStatistics.emptyStats f)
    have h2 := foldl_add_count fs (UserStatistics.add UserStatistics.emptyStats f)
    refine congrArg (fun x => [x]) ?_
    have : ResultRec.mk k W
        (List.foldl UserStatistics.add (UserStatistics.add UserStatistics.emptyStats f)
          fs).total_flight_duration
        (List.foldl UserStatistics.add (UserStatistics.add UserStatistics.emptyStats f)
          fs).number_of_flights
      = ResultRec.mk k W
          (UserStatistics.duration_of f + (fs.map UserStatistics.duration_of).sum)
          (fs.length + 1) := by
      rw [h1, h2]
      simp [UserStatistics.add, UserStatistics.emptyStats, Nat.add_comm]
    simpa using this

/-- C1: any nonempty batch of events that share one key and fall into one
window produces exactly one Result for that (key, window); its count is
the number of events and its aggregate total is the sum of the individual
per-event contributions, and any permutation of the arrival order yields
the same output. -/
theorem grouping_single_result (s : Int) (k : String) (W : Int)
    (l : List Flight) (hs : 0 < s) (hne : l ≠ [])
    (hall : ∀ f ∈ l, f.email_address = k ∧ windowStart f.event_time s = W) :
    runPipeline s l
      = [{ email_address := k, window_start := W,
           total_flight_duration :=
             (l.map (fun f => (UserStatistics.from_flight f).total_flight_duration)).sum,
           number_of_flights := l.length }] ∧
    ∀ l', List.Perm l l' → runPipeline s l' = runPipeline s l := by
  have hmain := grouping_core s k W l hs hne hall
  constructor
  · exact hmain
  · intro l' hp
    have hne' : l' ≠ [] := by
      intro h
      rw [h] at hp
      exact hne (List.Perm.eq_nil hp)
    have hall' : ∀ f ∈ l', f.email_address = k ∧ windowStart f.event_time s = W :=
      fun f hf => hall f (hp.mem_iff.mpr hf)
    rw [grouping_core s k W l' hs hne' hall', hmain]
    have hsum : (l'.map UserStatistics.duration_of).sum
        = (l.map UserStatistics.duration_of).sum :=
      ((hp.map UserStatistics.duration_of).symm).sum_eq
    rw [hsum, hp.length_eq]

/-- Witness for `grouping_single_result`: two flights with key
`"a@x.com"`, event times `0` and `59999` (one 60000 ms window), durations
10 and 30 minutes. -/
theorem grouping_single_result_witness :
    ((0 : Int) < 60000 ∧
      ([⟨"a@x.com", 0, 600, 0⟩, ⟨"a@x.com", 0, 1800, 59999⟩] : List Flight) ≠ []) ∧
    (runPipeline 60000 [⟨"a@x.com", 0, 600, 0⟩, ⟨"a@x.com", 0, 1800, 59999⟩]
      = [{ email_address := "a@x.com", window_start := 0,
           total_flight_duration :=
             (([⟨"a@x.com", 0, 600, 0⟩, ⟨"a@x.com", 0, 1800, 59999⟩] : List Flight).map
               (fun f => (UserStatistics.from_flight f).total_flight_duration)).sum,
           number_of_flights :=
             ([⟨"a@x.com", 0, 600, 0⟩, ⟨"a@x.com", 0, 1800, 59999⟩] : List Flight).length }] ∧
     ∀ l', List.Perm ([⟨"a@x.com", 0, 600, 0⟩, ⟨"a@x.com", 0, 1800, 59999⟩] : List Flight) l' →
       runPipeline 60000 l'
         = runPipeline 60000 [⟨"a@x.com", 0, 600, 0⟩, ⟨"a@x.com", 0, 1800, 59999⟩]) :=
  ⟨⟨by decide, by decide⟩,
   grouping_single_result 60000 "a@x.com" 0
     [⟨"a@x.com", 0, 600, 0⟩, ⟨"a@x.com", 0, 1800, 59999⟩]
     (by decide) (by decide) (by decide)⟩

/-- C4: adding one event to the empty accumulator reproduces the direct
single-record computation `from_flight`: count 1, the event's key, the
duration computed from the event's own fields; and the whole pipeline on
that single event emits exactly that statistic for the event's window. -/
theorem single_event_statistics (s : Int) (f : Flight) (hs : 0 < s) :
    UserStatistics.add UserStatistics.emptyStats f = UserStatistics.from_flight f ∧
    (UserStatistics.from_flight f).number_of_flights = 1 ∧
    (UserStatistics.from_flight f).email_address = f.email_address ∧
    (UserStatistics.from_flight f).total_flight_duration = UserStatistics.duration_of f ∧
    runPipeline s [f]
      = [{ email_address := f.email_address,
           window_start := windowStart f.event_time s,
           total_flight_duration := UserStatistics.duration_of f,
           number_of_flights := 1 }] := by
  refine ⟨?_, rfl, rfl, rfl, ?_⟩
  · simp [UserStatistics.add, UserStatistics.emptyStats, UserStatistics.from_flight]
  · unfold runPipeline procEvents
    rw [List.foldl_cons, stepEvent_init hs f, List.foldl_nil, flush_single]
    simp [finalizeEntry, UserStatistics.add, UserStatistics.emptyStats]

/-- Witness for `single_event_statistics` at a concrete flight and a
60000 ms window. -/
theorem single_event_statistics_witness :
    (0 : Int) < 60000 ∧
    (UserStatistics.add UserStatistics.emptyStats ⟨"a@x.com", 0, 600, 500⟩
        = UserStatistics.from_flight ⟨"a@x.com", 0, 600, 500⟩ ∧
     (UserStatistics.from_flight (⟨"a@x.com", 0, 600, 500⟩ : Flight)).number_of_flights = 1 ∧
     (UserStatistics.from_flight (⟨"a@x.com", 0, 600, 500⟩ : Flight)).email_address = "a@x.com" ∧
     (UserStatistics.from_flight (⟨"a@x.com", 0, 600, 500⟩ : Flight)).total_flight_duration
        = UserStatistics.duration_of ⟨"a@x.com", 0, 600, 500⟩ ∧
     runPipeline 60000 [⟨"a@x.com", 0, 600, 500⟩]
        = [{ email_address := "a@x.com",
             window_start := windowStart 500 60000,
             total_flight_duration := UserStatistics.duration_of ⟨"a@x.com", 0, 600, 500⟩,
             number_of_flights := 1 }]) :=
  ⟨by decide, single_event_statistics 60000 ⟨"a@x.com", 0, 600, 500⟩ (by decide)⟩

/-- C6 (amended): two same-key events whose event times differ by more
than the window size fall into different windows, and when they arrive in
event-time order the pipeline emits two separate Results, each counting
and aggregating only its own window's event. -/
theorem window_separation_in_order (s : Int) (e1 e2 : Flight) (hs : 0 < s)
    (_hk : e1.email_address = e2.email_address)
    (hgap : e1.event_time + s < e2.event_time) :
    windowStart e1.event_time s ≠ windowStart e2.event_time s ∧
    runPipeline s [e1, e2]
      = [{ email_address := e1.email_address,
           window_start := windowStart e1.event_time s,
           total_flight_duration := UserStatistics.duration_of e1,
           number_of_flights := 1 },
         { email_address := e2.email_address,
           window_start := windowStart e2.event_time s,
           total_flight_duration := UserStatistics.duration_of e2,
           number_of_flights := 1 }] := by
  have h1a : windowStart e1.event_time s ≤ e1.event_time := windowStart_le e1.event_time hs
  have h1b : e1.event_time < windowStart e1.event_time s + s := lt_windowStart_add e1.event_time hs
  have h2a : windowStart e2.event_time s ≤ e2.event_time := windowStart_le e2.event_time hs
  have h2b : e2.event_time < windowStart e2.event_time s + s := lt_windowStart_add e2.event_time hs
  have hW12 : windowStart e1.event_time s ≠ windowStart e2.event_time s := by omega
  refine ⟨hW12, ?_⟩
  unfold runPipeline procEvents
  rw [List.foldl_cons, stepEvent_init hs e1, List.foldl_cons, List.foldl_nil]
  have hmax : WatermarkTracker.advance (some e1.event_time) e2.event_time
      = e2.event_time := by
    unfold WatermarkTracker.advance
    exact max_eq_right (by omega)
  have hcl1 : windowStart e1.event_time s + s ≤ e2.event_time := by omega
  have hcl1' : ¬ (e2.event_time < windowStart e1.event_time s + s) := by omega
  have hop2 : ¬ (windowStart e2.event_time s + s ≤ e2.event_time) := by omega
  have hstep2 : stepEvent s
      { maxTs := some e1.event_time,
        store := [((e1.email_address, windowStart e1.event_time s),
                   UserStatistics.add UserStatistics.emptyStats e1)],
        emitted := [] } e2
      = { maxTs := some e2.event_time,
          store := [((e2.email_address, windowStart e2.event_time s),
                     UserStatistics.add UserStatistics.emptyStats e2)],
          emitted := [finalizeEntry ((e1.email_address, windowStart e1.event_time s),
                       UserStatistics.add UserStatistics.emptyStats e1)] } := by
    simp [stepEvent, stepStore, hmax, hop2, storeAdd, Prod.ext_iff, hW12, List.filter,
      hcl1, hcl1', h2b, sortByStart, List.insertionSort, List.orderedInsert]
  rw [hstep2, flush_single]
  simp [finalizeEntry, UserStatistics.add, UserStatistics.emptyStats]

/-- Witness for `window_separation_in_order` at two concrete flights 70000
ms apart with a 60000 ms window. -/
theorem window_separation_in_order_witness :
    ((0 : Int) < 60000 ∧
     (⟨"a@x.com", 0, 1200, 0⟩ : Flight).email_address
        = (⟨"a@x.com", 0, 600, 70000⟩ : Flight).email_address ∧
     (⟨"a@x.com", 0, 1200, 0⟩ : Flight).event_time + 60000
        < (⟨"a@x.com", 0, 600, 70000⟩ : Flight).event_time) ∧
    (windowStart 0 60000 ≠ windowStart 70000 60000 ∧
     runPipeline 60000 [⟨"a@x.com", 0, 1200, 0⟩, ⟨"a@x.com", 0, 600, 70000⟩]
      = [{ email_address := "a@x.com", window_start := windowStart 0 60000,
           total_flight_duration := UserStatistics.duration_of ⟨"a@x.com", 0, 1200, 0⟩,
           number_of_flights := 1 },
         { email_address := "a@x.com", window_start := windowStart 70000 60000,
           total_flight_duration := UserStatistics.duration_of ⟨"a@x.com", 0, 600, 70000⟩,
           number_of_flights := 1 }]) :=
  ⟨⟨by decide, by decide, by decide⟩,
   window_separation_in_order 60000 ⟨"a@x.com", 0, 1200, 0⟩ ⟨"a@x.com", 0, 600, 70000⟩
     (by decide) (by decide) (by decide)⟩

/-- Counterexample to C6 as stated: two same-key events whose event times
differ by more than the window size (70000 ms apart, window 60000 ms) and
fall into different windows, yet — arriving newest first — the pipeline
emits a single Result, because the older event is late (its window is
already closed by the watermark) and is dropped. -/
theorem window_separation_counterexample :
    (⟨"a@x.com", 0, 600, 70000⟩ : Flight).email_address
        = (⟨"a@x.com", 0, 1200, 0⟩ : Flight).email_address ∧
    ((⟨"a@x.com", 0, 600, 70000⟩ : Flight).event_time
        - (⟨"a@x.com", 0, 1200, 0⟩ : Flight).event_time > 60000 ∨
     (⟨"a@x.com", 0, 1200, 0⟩ : Flight).event_time
        - (⟨"a@x.com", 0, 600, 70000⟩ : Flight).event_time > 60000) ∧
    windowStart 70000 60000 ≠ windowStart 0 60000 ∧
    (runPipeline 60000 [⟨"a@x.com", 0, 600, 70000⟩, ⟨"a@x.com", 0, 1200, 0⟩]).length
      = 1 := by
  decide

lemma resPair_finalizeEntry (p : StoreKey × UserStatistics) :
    resPair (finalizeEntry p) = p.1 := rfl

lemma storeAdd_map_fst (st : Store) (k : StoreKey) (f : Flight) :
    (storeAdd st k f).map Prod.fst
      = if k ∈ st.map Prod.fst then st.map Prod.fst else st.map Prod.fst ++ [k] := by
  induction st with
  | nil => simp [storeAdd]
  | cons p rest ih =>
    by_cases hpk : p.1 = k
    · simp [storeAdd, hpk]
    · by_cases hm : k ∈ rest.map Prod.fst
      · simp [storeAdd, hpk, ih, hm, Ne.symm hpk]
      · simp [storeAdd, hpk, ih, hm, Ne.symm hpk]

lemma storeAdd_keys_nodup {st : Store} (h : (st.map Prod.fst).Nodup)
    (k : StoreKey) (f : Flight) : ((storeAdd st k f).map Prod.fst).Nodup := by
  rw [storeAdd_map_fst]
  by_cases hm : k ∈ st.map Prod.fst
  · simpa [hm] using h
  · simp [hm, List.nodup_append, h]

lemma store1_bound {s m : Int} {st : Store} (hinv : ∀ p ∈ st, m < p.1.2 + s)
    {k : StoreKey} {f : Flight} (hk : m < k.2 + s) :
    ∀ p ∈ storeAdd st k f, m < p.1.2 + s := by
  induction st with
  | nil =>
    intro p hp
    rw [storeAdd] at hp
    rcases List.mem_singleton.mp hp with h
    rw [h]
    exact hk
  | cons q rest ih =>
    obtain ⟨k', a⟩ := q
    intro p hp
    rw [storeAdd] at hp
    by_cases hq : k' = k
    · rw [if_pos hq] at hp
      rcases List.mem_cons.mp hp with h | h
      · rw [h]
        exact hinv (k', a) (List.mem_cons_self (k', a) rest)
      · exact hinv p (List.mem_cons_of_mem (k', a) h)
    · rw [if_neg hq] at hp
      rcases List.mem_cons.mp hp with h | h
      · rw [h]
        exact hinv (k', a) (List.mem_cons_self (k', a) rest)
      · exact ih (fun r hr => hinv r (List.mem_cons_of_mem (k', a) hr)) p h

lemma stepEvent_eq (s : Int) (st : PipeState) (f : Flight) :
    stepEvent s st f
      = { maxTs := some (WatermarkTracker.advance st.maxTs f.event_time),
          store := (stepStore s st f).filter
            (fun p => decide (WatermarkTracker.advance st.maxTs f.event_time < p.1.2 + s)),
          emitted := st.emitted ++
            (sortByStart ((stepStore s st f).filter
              (fun p => decide (p.1.2 + s ≤ WatermarkTracker.advance st.maxTs f.event_time)))).map
              finalizeEntry } := rfl

lemma store1_bound_all {s : Int} {st : PipeState} {m : Int} (f : Flight)
    (hmax : st.maxTs = some m) (hinv : ∀ p ∈ st.store, m < p.1.2 + s) :
    ∀ p ∈ stepStore s st f, m < p.1.2 + s := by
  unfold stepStore
  split_ifs with hlate
  · exact hinv
  · refine store1_bound hinv ?_
    rw [hmax] at hlate
    simp only [WatermarkTracker.advance, not_le] at hlate
    exact lt_of_le_of_lt (le_max_left m f.event_time) hlate

lemma sortPairs_nodup {st : Store} (h : (st.map Prod.fst).Nodup) :
    (((sortByStart st).map finalizeEntry).map resPair).Nodup := by
  rw [List.map_map]
  have hcomp : resPair ∘ finalizeEntry = (Prod.fst : StoreKey × UserStatistics → StoreKey) :=
    funext resPair_finalizeEntry
  rw [hcomp]
  exact ((List.perm_insertionSort startLe st).map Prod.fst).nodup_iff.mpr h

lemma mem_sortPairs {st : Store} {x : StoreKey}
    (hx : x ∈ ((sortByStart st).map finalizeEntry).map resPair) :
    ∃ p ∈ st, p.1 = x := by
  rw [List.map_map] at hx
  have hcomp : resPair ∘ finalizeEntry = (Prod.fst : StoreKey × UserStatistics → StoreKey) :=
    funext resPair_finalizeEntry
  rw [hcomp] at hx
  have := ((List.perm_insertionSort startLe st).map Prod.fst).mem_iff.mp hx
  obtain ⟨p, hp, hpx⟩ := List.mem_map.mp this
  exact ⟨p, hp, hpx⟩

lemma stepEvent_good {s : Int} {st : PipeState} (f : Flight) (h : goodState s st) :
    goodState s (stepEvent s st f) := by
  obtain ⟨hnd1, hnd2, hinv⟩ := h
  have hkeys1 : ((stepStore s st f).map Prod.fst).Nodup := by
    unfold stepStore
    split_ifs
    · exact hnd1
    · exact storeAdd_keys_nodup hnd1 _ f
  rw [stepEvent_eq]
  unfold goodState
  refine ⟨?_, ?_, ?_, ?_⟩
  · exact (((List.filter_sublist _).map Prod.fst).nodup hkeys1)
  · rw [List.map_append]
    have hnew : ((((stepStore s st f).filter
        (fun p => decide (p.1.2 + s ≤ WatermarkTracker.advance st.maxTs f.event_time))
        |> sortByStart).map finalizeEntry).map resPair).Nodup :=
      sortPairs_nodup (((List.filter_sublist _).map Prod.fst).nodup hkeys1)
    refine List.Nodup.append hnd2 hnew ?_
    intro x hxold hxnew
    obtain ⟨p, hpcl, hpx⟩ := mem_sortPairs hxnew
    have hpst : p ∈ stepStore s st f := List.mem_of_mem_filter hpcl
    obtain ⟨r, hr, hrx⟩ := List.mem_map.mp hxold
    cases hmt : st.maxTs with
    | none =>
      rw [hmt] at hinv
      rw [hinv.2] at hr
      exact absurd hr (List.not_mem_nil r)
    | some m =>
      rw [hmt] at hinv
      have h1 : m < p.1.2 + s := store1_bound_all f hmt hinv.1 p hpst
      have h2 : r.window_start + s ≤ m := hinv.2 r hr
      have h3 : r.window_start = p.1.2 := by
        have : resPair r = p.1 := hrx.trans hpx.symm
        have := congrArg Prod.snd this
        simpa [resPair] using this
      omega
  · intro p hp
    have := List.of_mem_filter hp
    exact of_decide_eq_true this
  · intro r hr
    rcases List.mem_append.mp hr with hrold | hrnew
    · cases hmt : st.maxTs with
      | none =>
        rw [hmt] at hinv
        rw [hinv.2] at hrold
        exact absurd hrold (List.not_mem_nil r)
      | some m =>
        rw [hmt] at hinv
        have h2 : r.window_start + s ≤ m := hinv.2 r hrold
        have hle : m ≤ WatermarkTracker.advance (some m) f.event_time :=
          le_max_left m f.event_time
        omega
    · obtain ⟨p, hpsort, hpr⟩ := List.mem_map.mp hrnew
      have hpcl := (List.perm_insertionSort startLe _).mem_iff.mp hpsort
      have hpred := List.of_mem_filter hpcl
      have hbound : p.1.2 + s ≤ WatermarkTracker.advance st.maxTs f.event_time :=
        of_decide_eq_true hpred
      have hws : r.window_start = p.1.2 := by
        rw [← hpr]
        rfl
      omega

lemma goodState_init (s : Int) : goodState s initPipe :=
  ⟨List.nodup_nil, List.nodup_nil, rfl, rfl⟩

lemma procEvents_good (s : Int) (l : List Flight) : goodState s (procEvents s l) := by
  unfold procEvents
  suffices h : ∀ st, goodState s st → goodState s (l.foldl (stepEvent s) st) from
    h initPipe (goodState_init s)
  induction l with
  | nil => exact fun st h => h
  | cons f fs ih => exact fun st h => ih (stepEvent s st f) (stepEvent_good f h)

lemma flush_nodup {s : Int} {st : PipeState} (h : goodState s st) :
    ((flushResults st).map resPair).Nodup := by
  obtain ⟨hnd1, hnd2, hinv⟩ := h
  unfold flushResults
  rw [List.map_append]
  refine List.Nodup.append hnd2 (sortPairs_nodup hnd1) ?_
  intro x hxold hxnew
  obtain ⟨p, hpst, hpx⟩ := mem_sortPairs hxnew
  obtain ⟨r, hr, hrx⟩ := List.mem_map.mp hxold
  cases hmt : st.maxTs with
  | none =>
    rw [hmt] at hinv
    rw [hinv.2] at hr
    exact absurd hr (List.not_mem_nil r)
  | some m =>
    rw [hmt] at hinv
    have h1 : m < p.1.2 + s := hinv.1 p hpst
    have h2 : r.window_start + s ≤ m := hinv.2 r hr
    have h3 : r.window_start = p.1.2 := by
      have hx : resPair r = p.1 := hrx.trans hpx.symm
      have := congrArg Prod.snd hx
      simpa [resPair] using this
    omega

lemma emitted_append_only (s : Int) (st : PipeState) (l : List Flight) :
    ∃ t2, (l.foldl (stepEvent s) st).emitted = st.emitted ++ t2 := by
  induction l generalizing st with
  | nil => exact ⟨[], (List.append_nil _).symm⟩
  | cons f fs ih =>
    obtain ⟨t2, ht⟩ := ih (stepEvent s st f)
    rw [List.foldl_cons, ht, stepEvent_eq]
    exact ⟨_, (List.append_assoc _ _ _)⟩

/-- C9: along the whole run, every (key, window) pair is finalized and
emitted at most once — the emitted Results of a full run carry pairwise
distinct (key, window) pairs — and emission is immutable: processing any
further events (late ones included) only appends to the already-emitted
Results, never altering or re-emitting them. -/
theorem emit_once_and_immutable (s : Int) (l l2 : List Flight) :
    ((runPipeline s l).map resPair).Nodup ∧
    ∃ t2, (procEvents s (l ++ l2)).emitted = (procEvents s l).emitted ++ t2 := by
  constructor
  · exact flush_nodup (procEvents_good s l)
  · unfold procEvents
    rw [List.foldl_append]
    exact emitted_append_only s (List.foldl (stepEvent s) initPipe l) l2
